import Mathlib

/-!
Verification development for the `dentry-monitor` agent
(repository `rophy/mem-psi-test`).

The Go sources are shallowly embedded here: Go byte strings become
`List Nat` (byte values), pure functions become Lean functions, the
stateful TSV writer and the kernel probe layer become explicit state
transformers.  Machine integers are modelled as `Nat` with explicit
bit arithmetic where it matters (the `depth` field of a raw trace
event is a `u32` whose bit 31 is the root-reached flag).
-/

namespace DentryMonitor

/-- Byte values of an ASCII string literal, the translation of a Go
string constant into our `List Nat` byte-string model. -/
def bytesOf (s : String) : List Nat :=
  s.data.map Char.toNat

/-! ### Trace event model (internal/tracing/consumer.go) -/

/-- Mirror of the Go `rawTraceEvent` struct, which itself matches the
eBPF `struct dentry_trace_event` layout: `names` holds up to eight
64-byte leaf-first path components, and bit 31 of `depth` is the
root-reached flag. -/
structure RawTraceEvent where
  timestamp : Nat
  cgroupId : Nat
  operation : Nat
  depth : Nat
  names : List (List Nat)

/-- Value of the Go constant `depthRootFlag = 0x80000000`. -/
def depthRootFlag : Nat := 0x80000000

/-- Translation of `bytes.IndexByte(slot, 0)` followed by `slot[:idx]`:
returns the bytes strictly before the first null byte, or `none` when
the slot holds no null byte at all (Go's `idx == -1` case, which
`buildPath` skips). -/
def takeToNull : List Nat → Option (List Nat)
  | [] => none
  | b :: rest => if b = 0 then some [] else (takeToNull rest).map (fun l => b :: l)

/-- One iteration of the component loop in `buildPath`: the slot
contributes a component exactly when the first null byte is at a
positive index (`idx > 0`) and the trimmed name is not the single
byte `/`. -/
def componentOf (slot : List Nat) : Option (List Nat) :=
  match takeToNull slot with
  | none => none
  | some name => if name = [] then none else if name = [47] then none else some name

/-- Translation of `strings.Join(parts, "/")`. -/
def joinSlash : List (List Nat) → List Nat
  | [] => []
  | [p] => p
  | p :: ps => p ++ 47 :: joinSlash ps

/-- Translation of `buildPath` from
`internal/tracing/consumer.go`: strip the root flag from `depth`,
clamp to 8, iterate slots from index `depth-1` down to `0`, keep the
null-trimmed non-empty non-`"/"` components, join with `/`; return
`"/"` when no component survives, else prepend `/` exactly when the
root flag was set. -/
def buildPath (e : RawTraceEvent) : List Nat :=
  let reachedRoot := e.depth.testBit 31
  let depth := min (e.depth % 2 ^ 31) 8
  let parts := ((List.range depth).reverse).filterMap
    (fun i => componentOf (e.names.getD i []))
  if parts = [] then [47]
  else if reachedRoot then 47 :: joinSlash parts
  else joinSlash parts

/-- A 64-byte name slot holding the given bytes followed by null
padding, the shape the eBPF program leaves in the ring buffer. -/
def padSlot (s : List Nat) : List Nat :=
  s ++ List.replicate (64 - s.length) 0

/-- Raw event with component count 0 and the root-reached flag clear;
all name slots are null bytes. -/
def evtDepthZero : RawTraceEvent :=
  { timestamp := 0, cgroupId := 0, operation := 0, depth := 0
    names := List.replicate 8 (List.replicate 64 0) }

/-- Raw event carrying leaf-first components `["l0","d","var"]` with
component count 3 and the root-reached flag set. -/
def evtThreeRoot : RawTraceEvent :=
  { timestamp := 0, cgroupId := 0, operation := 0
    depth := 3 + depthRootFlag
    names := [padSlot (bytesOf "l0"), padSlot (bytesOf "d"), padSlot (bytesOf "var"),
              List.replicate 64 0, List.replicate 64 0, List.replicate 64 0,
              List.replicate 64 0, List.replicate 64 0] }

/-- Raw event carrying leaf-first components `["l0","d","var"]` with
component count 3 and the root-reached flag clear. -/
def evtThreeNoRoot : RawTraceEvent :=
  { evtThreeRoot with depth := 3 }

/-- C1: the claim `path begins with '/' iff the root-reached flag is
set` fails on the code at the claimed boundary input: a raw event with
component count 0 and the root flag clear is reconstructed by
`buildPath` as the string `"/"` (byte 47), which begins with `/` even
though the flag is clear.  This contradicts the function's own
documentation, which says the absence of a leading `/` signals a
partial path. -/
theorem buildPath_depth0_noflag_yields_slash :
    buildPath evtDepthZero = [47] ∧ evtDepthZero.depth.testBit 31 = false := by
  constructor
  · rfl
  · rfl

/-- C3: on the leaf-first components `["l0","d","var"]` with component
count 3, `buildPath` produces `/var/d/l0` when the root-reached flag is
set and `var/d/l0` when it is clear: slots are read from index 2 down
to 0, null-trimmed, joined with `/`, and a leading `/` is prepended for
the flagged event. -/
theorem buildPath_three_components_example :
    buildPath evtThreeRoot = bytesOf "/var/d/l0" ∧
    buildPath evtThreeNoRoot = bytesOf "var/d/l0" := by
  constructor
  · rfl
  · rfl

/-! ### Byte-string primitives shared by the Go translations -/

/-- Translation of `strings.HasPrefix` on byte strings. -/
def hasPrefixB : List Nat → List Nat → Bool
  | [], _ => true
  | _ :: _, [] => false
  | p :: ps, b :: bs => p == b && hasPrefixB ps bs

/-- Translation of `strings.Index(s, pat)`: index of the first
occurrence of `pat` in `s`, or `none` for Go's `-1`. -/
def indexOfSub (pat : List Nat) : List Nat → Option Nat
  | [] => if hasPrefixB pat [] then some 0 else none
  | b :: rest =>
    if hasPrefixB pat (b :: rest) then some 0
    else (indexOfSub pat rest).map (· + 1)

/-- Translation of `strings.HasSuffix`. -/
def hasSuffixB (suf s : List Nat) : Bool :=
  hasPrefixB suf.reverse s.reverse

/-- Translation of `strings.TrimSuffix(s, suf)`. -/
def trimSuffixGo (s suf : List Nat) : List Nat :=
  if hasSuffixB suf s then s.take (s.length - suf.length) else s

/-- Translation of `strings.Split(s, sep)` for a one-byte separator. -/
def splitOnByte (sep : Nat) : List Nat → List (List Nat)
  | [] => [[]]
  | b :: rest =>
    if b = sep then [] :: splitOnByte sep rest
    else match splitOnByte sep rest with
      | [] => [[b]]
      | h :: t => (b :: h) :: t

/-! ### Cgroup-to-pod resolver (internal/cgroupmap/resolver.go) -/

/-- Mirror of the Go `PodInfo` record produced by the parser (the
`CgroupID` field is filled in later by `refresh`, not by the parser,
and is omitted here). -/
structure PodInfo where
  pod : List Nat
  container : List Nat
deriving DecidableEq

/-- Translation of `shortenUID`: systemd underscore escaping is
normalised to dashes and the result is truncated to 12 bytes. -/
def shortenUID (uid : List Nat) : List Nat :=
  let uid := uid.map (fun b => if b = 95 then 45 else b)
  if 12 < uid.length then uid.take 12 else uid

/-- One iteration of the segment loop inside
`parsePodFromCgroupPath`, threading the `(podUID, containerID)`
accumulator exactly as the Go loop body does: any segment whose first
occurrence of `"pod"` leaves a non-empty remainder (after stripping a
trailing `".slice"`) overwrites the pod UID, and a
`cri-containerd-*.scope` or 64-byte segment overwrites the container
identifier. -/
def scanPart (acc : List Nat × List Nat) (part : List Nat) : List Nat × List Nat :=
  let podUID :=
    match indexOfSub (bytesOf "pod") part with
    | some idx =>
      let rest := trimSuffixGo (part.drop (idx + 3)) (bytesOf ".slice")
      if rest ≠ [] then rest else acc.1
    | none => acc.1
  let containerID :=
    if hasPrefixB (bytesOf "cri-containerd-") part then
      trimSuffixGo (part.drop (bytesOf "cri-containerd-").length) (bytesOf ".scope")
    else if part.length = 64 then part
    else acc.2
  (podUID, containerID)

/-- Translation of `parsePodFromCgroupPath`: reject paths without a
`kubepods` substring, split on `/`, fold the segment scan, reject an
empty pod UID, and build the `PodInfo` with label
`"pod-" + shortenUID(podUID)`. -/
def parsePodFromCgroupPath (cgPath : List Nat) : Option PodInfo :=
  if (indexOfSub (bytesOf "kubepods") cgPath).isSome = false then none
  else
    let parts := splitOnByte 47 cgPath
    let r := parts.foldl scanPart ([], [])
    if r.1 = [] then none
    else some { pod := bytesOf "pod-" ++ shortenUID r.1, container := r.2 }

/-- Concrete pod UID used in the C2 counterexample. -/
def uidExample : List Nat := bytesOf "11111111-2222-3333-4444-555555555555"

/-- Concrete 64-hex-character container identifier used in the C2
counterexample. -/
def cidExample : List Nat := List.replicate 64 97

/-- Systemd-driver cgroup path for the example pod and container. -/
def sysdPathExample : List Nat :=
  bytesOf "/kubepods.slice/kubepods-burstable.slice/kubepods-burstable-pod" ++
  uidExample ++ bytesOf ".slice/cri-containerd-" ++ cidExample ++ bytesOf ".scope"

/-- Cgroupfs-driver cgroup path for the same pod and container. -/
def cgfsPathExample : List Nat :=
  bytesOf "/kubepods/burstable/pod" ++ uidExample ++ bytesOf "/" ++ cidExample

/-- C2: the systemd-driver and cgroupfs-driver paths for the same pod
UID and container id do NOT parse to the same pod identity.  The Go
code locates the first occurrence of `"pod"` inside each segment, and
in `kubepods-burstable-pod<UID>.slice` that occurrence is the one
inside `kubepods`, so the extracted pod UID is
`s-burstable-pod<UID>` and the emitted pod label is
`pod-s-burstable-`, while the cgroupfs path yields
`pod-<first 12 bytes of UID>`.  The container identifiers agree. -/
theorem parsePod_systemd_cgroupfs_disagree :
    parsePodFromCgroupPath sysdPathExample =
      some { pod := bytesOf "pod-s-burstable-", container := cidExample } ∧
    parsePodFromCgroupPath cgfsPathExample =
      some { pod := bytesOf "pod-11111111-222", container := cidExample } ∧
    parsePodFromCgroupPath sysdPathExample ≠ parsePodFromCgroupPath cgfsPathExample := by
  refine ⟨rfl, rfl, ?_⟩
  decide

/-! ### TSV writer rotation (internal/tracing/writer.go, embedded in README)

The set of predecessor files `traces.tsv.i` on disk is modelled as a
`Finset Nat` of the indices `i` that exist.  `os.Rename(i, i+1)` is a
no-op when the source does not exist (the Go code ignores the error)
and overwrites any existing target. -/

/-- Effect of `os.Rename(rotatedPath(i), rotatedPath(i+1))` on the set
of existing predecessor indices. -/
def shiftStep (s : Finset Nat) (i : Nat) : Finset Nat :=
  if i ∈ s then insert (i + 1) (s.erase i) else s

/-- The rename loop of `rotate`: processes indices `n, n-1, …, 1` in
that order, exactly like `for i := maxFiles - 1; i >= 1; i--`. -/
def shiftLoop : Nat → Finset Nat → Finset Nat
  | 0, s => s
  | i + 1, s => shiftLoop i (shiftStep s (i + 1))

/-- Effect of one `rotate` call on the predecessor-file set: delete
predecessor `maxFiles`, shift `i → i+1` for `i` from `maxFiles-1` down
to `1`, then rename the active file to predecessor `1`. -/
def rotateFiles (maxFiles : Nat) (s : Finset Nat) : Finset Nat :=
  insert 1 (shiftLoop (maxFiles - 1) (s.erase maxFiles))

theorem shiftStep_insert (s : Finset Nat) (i b : Nat) (hib : i ≠ b) :
    shiftStep (insert b s) i = insert b (shiftStep s i) := by
  by_cases hm : i ∈ s
  · have hmem : i ∈ insert b s := Finset.mem_insert_of_mem hm
    simp only [shiftStep, hmem, hm, if_pos]
    rw [Finset.erase_insert_of_ne (Ne.symm hib), Finset.Insert.comm]
  · have hmem : i ∉ insert b s := by
      simp [Finset.mem_insert, hm, hib]
    simp [shiftStep, hmem, hm]

theorem shiftLoop_insert (n : Nat) : ∀ (s : Finset Nat) (b : Nat), n + 1 < b →
    shiftLoop n (insert b s) = insert b (shiftLoop n s) := by
  induction n with
  | zero => intro s b _; rfl
  | succ n ih =>
    intro s b h
    show shiftLoop n (shiftStep (insert b s) (n + 1)) =
      insert b (shiftLoop n (shiftStep s (n + 1)))
    rw [shiftStep_insert s (n + 1) b (by omega), ih _ b (by omega)]

theorem shiftLoop_Icc (n : Nat) : ∀ m : Nat, m ≤ n →
    shiftLoop n (Finset.Icc 1 m) = Finset.Icc 2 (m + 1) := by
  induction n with
  | zero =>
    intro m hm
    have hm0 : m = 0 := by omega
    subst hm0
    show Finset.Icc 1 0 = Finset.Icc 2 1
    ext x
    simp only [Finset.mem_Icc]
    omega
  | succ n ih =>
    intro m hm
    by_cases hmn : m ≤ n
    · have hnm : (n + 1) ∉ Finset.Icc 1 m := by
        simp only [Finset.mem_Icc]
        omega
      show shiftLoop n (shiftStep (Finset.Icc 1 m) (n + 1)) = _
      rw [show shiftStep (Finset.Icc 1 m) (n + 1) = Finset.Icc 1 m by
            simp [shiftStep, hnm],
          ih m hmn]
    · have hm1 : m = n + 1 := by omega
      subst hm1
      have hmem : (n + 1) ∈ Finset.Icc 1 (n + 1) := by
        simp only [Finset.mem_Icc]
        omega
      have herase : (Finset.Icc 1 (n + 1)).erase (n + 1) = Finset.Icc 1 n := by
        ext x
        simp only [Finset.mem_erase, Finset.mem_Icc]
        omega
      show shiftLoop n (shiftStep (Finset.Icc 1 (n + 1)) (n + 1)) = _
      rw [show shiftStep (Finset.Icc 1 (n + 1)) (n + 1) =
            insert (n + 1 + 1) (Finset.Icc 1 n) by
            simp [shiftStep, hmem, herase],
          shiftLoop_insert n _ (n + 1 + 1) (by omega), ih n (le_refl n)]
      ext x
      simp only [Finset.mem_insert, Finset.mem_Icc]
      omega

theorem rotateFiles_Icc (maxFiles m : Nat) (h1 : 1 ≤ maxFiles) (hm : m ≤ maxFiles) :
    rotateFiles maxFiles (Finset.Icc 1 m) = Finset.Icc 1 (min (m + 1) maxFiles) := by
  unfold rotateFiles
  have herase : (Finset.Icc 1 m).erase maxFiles = Finset.Icc 1 (min m (maxFiles - 1)) := by
    ext x
    simp only [Finset.mem_erase, Finset.mem_Icc]
    omega
  rw [herase, shiftLoop_Icc (maxFiles - 1) (min m (maxFiles - 1)) (by omega)]
  ext x
  simp only [Finset.mem_insert, Finset.mem_Icc]
  omega

/-- C4: after any sequence of `K` rotations starting from an empty
directory, the predecessor-file set is exactly the contiguous range
`1 .. min K maxFiles` (no gaps), and in particular never holds more
than `maxFiles` predecessors. -/
theorem rotation_preds_contiguous (maxFiles K : Nat) (h : 1 ≤ maxFiles) :
    (rotateFiles maxFiles)^[K] ∅ = Finset.Icc 1 (min K maxFiles) ∧
    ((rotateFiles maxFiles)^[K] ∅).card ≤ maxFiles := by
  have main : (rotateFiles maxFiles)^[K] ∅ = Finset.Icc 1 (min K maxFiles) := by
    induction K with
    | zero =>
      have h0 : min 0 maxFiles = 0 := by omega
      show (∅ : Finset Nat) = Finset.Icc 1 (min 0 maxFiles)
      rw [h0]
      exact (Finset.Icc_eq_empty (by omega)).symm
    | succ K ih =>
      rw [Function.iterate_succ_apply', ih,
        rotateFiles_Icc maxFiles (min K maxFiles) h (by omega)]
      congr 1
      omega
  refine ⟨main, ?_⟩
  rw [main, Nat.card_Icc]
  omega

/-- Witness for C4 at `maxFiles = 3`, `K = 5`: five rotations with
retention 3 leave exactly predecessors `{1, 2, 3}`. -/
theorem rotation_preds_contiguous_witness :
    1 ≤ 3 ∧ ((rotateFiles 3)^[5] ∅ = Finset.Icc 1 (min 5 3) ∧
      ((rotateFiles 3)^[5] ∅).card ≤ 3) :=
  ⟨by decide, rotation_preds_contiguous 3 5 (by decide)⟩

/-! ### Wall-clock timestamps and RFC3339Nano formatting

Modelled from the spec: the writer formats `evt.Timestamp` with Go's
`time.Time.Format(time.RFC3339Nano)` (standard library, outside this
repository): zero-padded `yyyy-mm-ddThh:mm:ss`, a fractional-second
part with trailing zeros removed and omitted entirely when the
nanosecond field is zero, and a `Z` or `±hh:mm` zone suffix. -/

/-- Broken-down wall-clock time as carried by a Go `time.Time`. -/
structure GoTime where
  year : Nat
  month : Nat
  day : Nat
  hour : Nat
  minute : Nat
  second : Nat
  nanos : Nat
  utc : Bool
  tzNeg : Bool
  tzHour : Nat
  tzMin : Nat
deriving DecidableEq

/-- Field ranges guaranteed for any time produced by `time.Now()`. -/
def GoTime.valid (t : GoTime) : Prop :=
  1000 ≤ t.year ∧ t.year ≤ 9999 ∧ 1 ≤ t.month ∧ t.month ≤ 12 ∧
  1 ≤ t.day ∧ t.day ≤ 31 ∧ t.hour ≤ 23 ∧ t.minute ≤ 59 ∧ t.second ≤ 59 ∧
  t.nanos < 1000000000 ∧ t.tzHour ≤ 23 ∧ t.tzMin ≤ 59

instance (t : GoTime) : Decidable t.valid := by
  unfold GoTime.valid
  infer_instance

/-- Two-digit zero-padded decimal, as bytes. -/
def pad2 (n : Nat) : List Nat := [48 + n / 10, 48 + n % 10]

/-- Four-digit zero-padded decimal, as bytes. -/
def pad4 (n : Nat) : List Nat :=
  [48 + n / 1000, 48 + n / 100 % 10, 48 + n / 10 % 10, 48 + n % 10]

/-- Nine-digit zero-padded decimal, as bytes (the `%09d` fraction). -/
def pad9 (n : Nat) : List Nat :=
  [48 + n / 100000000, 48 + n / 10000000 % 10, 48 + n / 1000000 % 10,
   48 + n / 100000 % 10, 48 + n / 10000 % 10, 48 + n / 1000 % 10,
   48 + n / 100 % 10, 48 + n / 10 % 10, 48 + n % 10]

/-- Removal of trailing `'0'` bytes from the fractional part. -/
def dropTrailZeros (l : List Nat) : List Nat :=
  (l.reverse.dropWhile (fun b => b == 48)).reverse

/-- Fractional-second bytes: empty when `nanos = 0`, otherwise a dot
followed by the nine-digit fraction with trailing zeros removed. -/
def fracBytes (t : GoTime) : List Nat :=
  if t.nanos = 0 then [] else 46 :: dropTrailZeros (pad9 t.nanos)

/-- Zone suffix bytes: `Z` for a zero offset, else `±hh:mm`. -/
def offsetBytes (t : GoTime) : List Nat :=
  if t.utc then [90]
  else (if t.tzNeg then 45 else 43) :: (pad2 t.tzHour ++ 58 :: pad2 t.tzMin)

/-- The full RFC3339Nano rendering of a wall-clock time. -/
def formatRFC3339Nano (t : GoTime) : List Nat :=
  pad4 t.year ++ 45 :: (pad2 t.month ++ 45 :: (pad2 t.day ++ 84 ::
    (pad2 t.hour ++ 58 :: (pad2 t.minute ++ 58 ::
      (pad2 t.second ++ (fracBytes t ++ offsetBytes t))))))

/-! Recogniser for the RFC3339-with-nanoseconds shape accepted by Go's
`time.Parse(time.RFC3339Nano, …)`. -/

/-- A decimal digit byte. -/
def isDigitB (b : Nat) : Bool := decide (48 ≤ b) && decide (b ≤ 57)

/-- Consume one digit byte. -/
def readDigit : List Nat → Option (Nat × List Nat)
  | b :: rest => if isDigitB b then some (b - 48, rest) else none
  | [] => none

/-- Consume two digit bytes as a number. -/
def read2 (bs : List Nat) : Option (Nat × List Nat) :=
  match readDigit bs with
  | none => none
  | some (a, bs) =>
    match readDigit bs with
    | none => none
    | some (b, bs) => some (a * 10 + b, bs)

/-- Consume four digit bytes as a number. -/
def read4 (bs : List Nat) : Option (Nat × List Nat) :=
  match read2 bs with
  | none => none
  | some (a, bs) =>
    match read2 bs with
    | none => none
    | some (b, bs) => some (a * 100 + b, bs)

/-- Consume one expected byte. -/
def expectByte (b : Nat) : List Nat → Option (List Nat)
  | c :: rest => if c = b then some rest else none
  | [] => none

/-- Consume `yyyy-mm-ddThh:mm:ss` and return the numeric fields plus
the remaining bytes. -/
def parseDateTime (bs : List Nat) :
    Option (Nat × Nat × Nat × Nat × Nat × Nat × List Nat) :=
  match read4 bs with
  | none => none
  | some (y, bs) =>
  match expectByte 45 bs with
  | none => none
  | some bs =>
  match read2 bs with
  | none => none
  | some (mo, bs) =>
  match expectByte 45 bs with
  | none => none
  | some bs =>
  match read2 bs with
  | none => none
  | some (d, bs) =>
  match expectByte 84 bs with
  | none => none
  | some bs =>
  match read2 bs with
  | none => none
  | some (h, bs) =>
  match expectByte 58 bs with
  | none => none
  | some bs =>
  match read2 bs with
  | none => none
  | some (mi, bs) =>
  match expectByte 58 bs with
  | none => none
  | some bs =>
  match read2 bs with
  | none => none
  | some (s, bs) => some (y, mo, d, h, mi, s, bs)

/-- Accept the zone suffix: `Z`, or `±hh:mm` with valid ranges,
consuming the whole remaining input. -/
def checkOffsetRFC (bs : List Nat) : Bool :=
  match bs with
  | [] => false
  | b :: rest =>
    if b = 90 then rest.isEmpty
    else if b = 43 ∨ b = 45 then
      match read2 rest with
      | none => false
      | some (hh, rest1) =>
        decide (hh ≤ 23) &&
          (match expectByte 58 rest1 with
           | none => false
           | some rest2 =>
             match read2 rest2 with
             | none => false
             | some (mm, rest3) => decide (mm ≤ 59) && rest3.isEmpty)
    else false

/-- Accept an optional `.`-prefixed fraction of one to nine digits,
then the zone suffix. -/
def checkFracOffset (bs : List Nat) : Bool :=
  match bs with
  | b :: rest =>
    if b = 46 then
      decide (1 ≤ (rest.takeWhile isDigitB).length) &&
      decide ((rest.takeWhile isDigitB).length ≤ 9) &&
      checkOffsetRFC (rest.dropWhile isDigitB)
    else checkOffsetRFC bs
  | [] => checkOffsetRFC bs

/-- Acceptance of the full RFC3339Nano shape, range checks included. -/
def isRFC3339NanoB (bs : List Nat) : Bool :=
  match parseDateTime bs with
  | none => false
  | some (_, mo, d, h, mi, s, rest) =>
    decide (1 ≤ mo) && decide (mo ≤ 12) && decide (1 ≤ d) && decide (d ≤ 31) &&
    decide (h ≤ 23) && decide (mi ≤ 59) && decide (s ≤ 59) && checkFracOffset rest

/-! ### TSV record formatting and writer state
(internal/tracing/writer.go, embedded in README) -/

/-- Decimal digit bytes of `n`, least significant first, with explicit
fuel so the definition is structurally recursive; `n + 1` units of fuel
always suffice because the argument shrinks by a factor of ten. -/
def natDigitsRevAux : Nat → Nat → List Nat
  | _, 0 => []
  | n, fuel + 1 =>
    if n < 10 then [48 + n % 10]
    else (48 + n % 10) :: natDigitsRevAux (n / 10) fuel

/-- Decimal digit bytes of `n`, least significant first. -/
def natDigitsRev (n : Nat) : List Nat := natDigitsRevAux n (n + 1)

/-- Translation of `fmt` `%d` on an unsigned integer. -/
def natToBytes (n : Nat) : List Nat := (natDigitsRev n).reverse

/-- Enriched trace event handed to `TSVWriter.WriteEvent`; the
timestamp is the wall-clock `time.Now()` value set by the consumer. -/
structure TraceEvent where
  timestamp : GoTime
  pod : List Nat
  container : List Nat
  cgroupId : Nat
  operation : List Nat
  path : List Nat
  fstype : List Nat

/-- Value of the Go constant `tsvHeader`. -/
def tsvHeader : List Nat :=
  bytesOf "timestamp\tpod\tcontainer\tcgroup_id\toperation\tpath\tfstype\n"

/-- Translation of the `fmt.Sprintf` line built by `WriteEvent`:
seven fields joined by tabs, terminated by a newline. -/
def formatLine (e : TraceEvent) : List Nat :=
  formatRFC3339Nano e.timestamp ++ 9 :: (e.pod ++ 9 :: (e.container ++ 9 ::
    (natToBytes e.cgroupId ++ 9 :: (e.operation ++ 9 ::
      (e.path ++ 9 :: (e.fstype ++ [10]))))))

/-- Writer state: rotation threshold and retention, the active file's
bytes and tracked size, and the set of predecessor indices on disk. -/
structure TSVWriter where
  maxSize : Nat
  maxFiles : Nat
  content : List Nat
  curSize : Nat
  preds : Finset Nat

/-- Translation of `openFile` on a (possibly existing) active file:
`curSize` is the stat size, and the header is written exactly when the
file is empty. -/
def openFileContent (existing : List Nat) : List Nat × Nat :=
  if existing.length = 0 then (tsvHeader, tsvHeader.length) else (existing, existing.length)

/-- Translation of `rotate`: shift the predecessor set, rename the
active file to predecessor 1, and reopen a fresh active file (which
does not exist any more, so `openFile` starts from empty). -/
def rotateWriter (w : TSVWriter) : TSVWriter :=
  let preds := rotateFiles w.maxFiles w.preds
  let oc := openFileContent []
  { w with preds := preds, content := oc.1, curSize := oc.2 }

/-- Translation of `WriteEvent`: append the formatted line, bump the
tracked size, and rotate when the size meets or exceeds `maxSize`. -/
def writeEvent (w : TSVWriter) (e : TraceEvent) : TSVWriter :=
  let line := formatLine e
  let w1 : TSVWriter :=
    { w with content := w.content ++ line, curSize := w.curSize + line.length }
  if w.maxSize ≤ w1.curSize then rotateWriter w1 else w1

/-- C5: whenever a `WriteEvent` call brings the active file's
cumulative size to at least the rotation threshold, the writer
rotates (the predecessor set is shifted) and the freshly opened
active file's content and tracked size are exactly the header
line. -/
theorem writeEvent_rotates_to_header (w : TSVWriter) (e : TraceEvent)
    (h : w.maxSize ≤ w.curSize + (formatLine e).length) :
    (writeEvent w e).content = tsvHeader ∧
    (writeEvent w e).curSize = tsvHeader.length ∧
    (writeEvent w e).preds = rotateFiles w.maxFiles w.preds := by
  simp [writeEvent, h, rotateWriter, openFileContent]

/-- Concrete wall-clock time used for witnesses. -/
def timeExample : GoTime :=
  { year := 2026, month := 10, day := 12, hour := 3, minute := 4, second := 5
    nanos := 123000000, utc := true, tzNeg := false, tzHour := 0, tzMin := 0 }

/-- Concrete enriched trace event used for witnesses. -/
def evtPlain : TraceEvent :=
  { timestamp := timeExample, pod := bytesOf "pod-x", container := bytesOf "c"
    cgroupId := 42, operation := bytesOf "alloc", path := bytesOf "/var/a"
    fstype := bytesOf "ext4" }

/-- Concrete writer at the rotation threshold (threshold 1 byte). -/
def writerExample : TSVWriter :=
  { maxSize := 1, maxFiles := 3, content := tsvHeader
    curSize := tsvHeader.length, preds := ∅ }

/-- Witness for C5 at a concrete writer and event. -/
theorem writeEvent_rotates_to_header_witness :
    writerExample.maxSize ≤ writerExample.curSize + (formatLine evtPlain).length ∧
    ((writeEvent writerExample evtPlain).content = tsvHeader ∧
     (writeEvent writerExample evtPlain).curSize = tsvHeader.length ∧
     (writeEvent writerExample evtPlain).preds =
       rotateFiles writerExample.maxFiles writerExample.preds) :=
  ⟨by decide, writeEvent_rotates_to_header writerExample evtPlain (by decide)⟩

/-! ### Lemmas: the RFC3339Nano rendering is accepted by the recogniser -/

theorem mem_dropTrailZeros {l : List Nat} {b : Nat} (h : b ∈ dropTrailZeros l) :
    b ∈ l := by
  unfold dropTrailZeros at h
  rw [List.mem_reverse] at h
  exact List.mem_reverse.mp ((List.dropWhile_sublist _).subset h)

theorem length_dropTrailZeros_le (l : List Nat) :
    (dropTrailZeros l).length ≤ l.length := by
  unfold dropTrailZeros
  rw [List.length_reverse]
  calc (l.reverse.dropWhile (fun b => b == 48)).length
      ≤ l.reverse.length := (List.dropWhile_sublist _).length_le
    _ = l.length := List.length_reverse l

theorem read2_pad2 (n : Nat) (h : n ≤ 99) (rest : List Nat) :
    read2 (pad2 n ++ rest) = some (n, rest) := by
  have ha : isDigitB (48 + n / 10) = true := by
    simp only [isDigitB, Bool.and_eq_true, decide_eq_true_eq]
    omega
  have hb : isDigitB (48 + n % 10) = true := by
    simp only [isDigitB, Bool.and_eq_true, decide_eq_true_eq]
    omega
  simp [pad2, read2, readDigit, ha, hb]
  omega

theorem pad4_eq (n : Nat) : pad4 n = pad2 (n / 100) ++ pad2 (n % 100) := by
  have h1 : n / 1000 = n / 100 / 10 := by omega
  have h3 : n / 10 % 10 = n % 100 / 10 := by omega
  have h4 : n % 10 = n % 100 % 10 := by omega
  simp [pad4, pad2, h1, h3, h4]

theorem read4_pad4 (n : Nat) (h : n ≤ 9999) (rest : List Nat) :
    read4 (pad4 n ++ rest) = some (n, rest) := by
  rw [pad4_eq, List.append_assoc]
  have hval : n / 100 * 100 + n % 100 = n := by omega
  simp [read4, read2_pad2 (n / 100) (by omega), read2_pad2 (n % 100) (by omega), hval]

theorem takeWhile_append_all {p : Nat → Bool} :
    ∀ (a b : List Nat), (∀ x ∈ a, p x = true) →
      (∀ x, b.head? = some x → p x = false) →
      (a ++ b).takeWhile p = a ∧ (a ++ b).dropWhile p = b := by
  intro a
  induction a with
  | nil =>
    intro b _ hb
    cases b with
    | nil => exact ⟨rfl, rfl⟩
    | cons x t =>
      constructor
      · simp [List.takeWhile_cons, hb x rfl]
      · simp [List.dropWhile_cons, hb x rfl]
  | cons x a ih =>
    intro b ha hb
    have hx : p x = true := ha x (by simp)
    have rest := ih b (fun y hy => ha y (by simp [hy])) hb
    constructor
    · simp [List.takeWhile_cons, hx, rest.1]
    · simp [List.dropWhile_cons, hx, rest.2]

theorem pad9_digits (n : Nat) (h : n < 1000000000) :
    ∀ b ∈ pad9 n, isDigitB b = true := by
  intro b hb
  simp only [pad9, List.mem_cons, List.not_mem_nil, or_false] at hb
  simp only [isDigitB, Bool.and_eq_true, decide_eq_true_eq]
  rcases hb with h1|h1|h1|h1|h1|h1|h1|h1|h1 <;> subst h1 <;> omega

theorem dropTrail_pad9_ne_nil (n : Nat) (_h : n < 1000000000) (hn : n ≠ 0) :
    dropTrailZeros (pad9 n) ≠ [] := by
  intro hemp
  unfold dropTrailZeros at hemp
  rw [List.reverse_eq_nil_iff] at hemp
  have hall : ∀ x ∈ pad9 n, x = 48 := by
    intro x hx
    have := List.dropWhile_eq_nil_iff.mp hemp x (List.mem_reverse.mpr hx)
    simpa using this
  have e1 := hall (48 + n / 100000000) (by simp [pad9])
  have e2 := hall (48 + n / 10000000 % 10) (by simp [pad9])
  have e3 := hall (48 + n / 1000000 % 10) (by simp [pad9])
  have e4 := hall (48 + n / 100000 % 10) (by simp [pad9])
  have e5 := hall (48 + n / 10000 % 10) (by simp [pad9])
  have e6 := hall (48 + n / 1000 % 10) (by simp [pad9])
  have e7 := hall (48 + n / 100 % 10) (by simp [pad9])
  have e8 := hall (48 + n / 10 % 10) (by simp [pad9])
  have e9 := hall (48 + n % 10) (by simp [pad9])
  omega

theorem read2_pad2_nil (n : Nat) (h : n ≤ 99) :
    read2 (pad2 n) = some (n, []) := by
  have := read2_pad2 n h []
  rwa [List.append_nil] at this

theorem checkOffsetRFC_offsetBytes (t : GoTime) (h : t.valid) :
    checkOffsetRFC (offsetBytes t) = true := by
  obtain ⟨_, _, _, _, _, _, _, _, _, _, hth, htm⟩ := h
  unfold offsetBytes
  by_cases hu : t.utc
  · simp [hu, checkOffsetRFC]
  · by_cases hn : t.tzNeg <;>
      simp [hu, hn, checkOffsetRFC, read2_pad2 t.tzHour (by omega),
        expectByte, read2_pad2_nil t.tzMin (by omega), hth, htm]

theorem offsetBytes_head_not_digit (t : GoTime) :
    ∀ x, (offsetBytes t).head? = some x → isDigitB x = false := by
  unfold offsetBytes
  by_cases hu : t.utc
  · simp [hu]
    decide
  · by_cases hn : t.tzNeg <;> simp [hu, hn] <;> decide

theorem checkFracOffset_format (t : GoTime) (h : t.valid) :
    checkFracOffset (fracBytes t ++ offsetBytes t) = true := by
  have hoff := checkOffsetRFC_offsetBytes t h
  have hnv : t.nanos < 1000000000 := by
    obtain ⟨_, _, _, _, _, _, _, _, _, hn, _, _⟩ := h
    exact hn
  unfold fracBytes
  by_cases h0 : t.nanos = 0
  · simp only [h0, if_pos rfl, List.nil_append]
    unfold offsetBytes
    by_cases hu : t.utc
    · simpa [hu, checkFracOffset] using (by simpa [offsetBytes, hu] using hoff)
    · by_cases hn : t.tzNeg <;>
        simpa [hu, hn, checkFracOffset] using (by simpa [offsetBytes, hu, hn] using hoff)
  · have hdigs : ∀ x ∈ dropTrailZeros (pad9 t.nanos), isDigitB x = true :=
      fun x hx => pad9_digits t.nanos hnv x (mem_dropTrailZeros hx)
    have hsplit := takeWhile_append_all (dropTrailZeros (pad9 t.nanos)) (offsetBytes t)
      hdigs (offsetBytes_head_not_digit t)
    have hlen1 : 1 ≤ (dropTrailZeros (pad9 t.nanos)).length := by
      have := dropTrail_pad9_ne_nil t.nanos hnv h0
      cases hh : dropTrailZeros (pad9 t.nanos) with
      | nil => exact absurd hh this
      | cons a b => simp
    have hlen9 : (dropTrailZeros (pad9 t.nanos)).length ≤ 9 := by
      have := length_dropTrailZeros_le (pad9 t.nanos)
      simpa [pad9] using this
    rw [if_neg h0, List.cons_append]
    simp [checkFracOffset, hsplit.1, hsplit.2, hoff, hlen1, hlen9]

theorem parseDateTime_format (t : GoTime) (h : t.valid) :
    parseDateTime (formatRFC3339Nano t) =
      some (t.year, t.month, t.day, t.hour, t.minute, t.second,
        fracBytes t ++ offsetBytes t) := by
  obtain ⟨hy1, hy2, hm1, hm2, hd1, hd2, hh, hmi, hs, hn, _, _⟩ := h
  unfold formatRFC3339Nano parseDateTime
  simp [read4_pad4 t.year (by omega), read2_pad2 t.month (by omega),
    read2_pad2 t.day (by omega), read2_pad2 t.hour (by omega),
    read2_pad2 t.minute (by omega), read2_pad2 t.second (by omega), expectByte]

theorem isRFC_format (t : GoTime) (h : t.valid) :
    isRFC3339NanoB (formatRFC3339Nano t) = true := by
  unfold isRFC3339NanoB
  rw [parseDateTime_format t h]
  obtain ⟨hy1, hy2, hm1, hm2, hd1, hd2, hh, hmi, hs, hn, hth, htm⟩ := h
  simp only [Bool.and_eq_true, decide_eq_true_eq]
  constructor
  · omega
  · exact checkFracOffset_format t
      ⟨hy1, hy2, hm1, hm2, hd1, hd2, hh, hmi, hs, hn, hth, htm⟩

/-! ### Lemmas: tab-splitting of a formatted record line -/

theorem splitOnByte_no_sep (sep : Nat) : ∀ a : List Nat, (∀ x ∈ a, x ≠ sep) →
    splitOnByte sep a = [a] := by
  intro a
  induction a with
  | nil => intro _; rfl
  | cons x t ih =>
    intro h
    have hx : x ≠ sep := h x (by simp)
    simp only [splitOnByte, if_neg hx]
    rw [ih (fun y hy => h y (by simp [hy]))]

theorem splitOnByte_append (sep : Nat) : ∀ (a rest : List Nat), (∀ x ∈ a, x ≠ sep) →
    splitOnByte sep (a ++ sep :: rest) = a :: splitOnByte sep rest := by
  intro a
  induction a with
  | nil =>
    intro rest _
    simp [splitOnByte]
  | cons x t ih =>
    intro rest h
    have hx : x ≠ sep := h x (by simp)
    simp only [List.cons_append, splitOnByte, if_neg hx, List.append_eq]
    rw [ih rest (fun y hy => h y (by simp [hy]))]

theorem natDigitsRevAux_digits :
    ∀ fuel n : Nat, ∀ x ∈ natDigitsRevAux n fuel, 48 ≤ x ∧ x ≤ 57 := by
  intro fuel
  induction fuel with
  | zero =>
    intro n x hx
    simp [natDigitsRevAux] at hx
  | succ fuel ih =>
    intro n x hx
    simp only [natDigitsRevAux] at hx
    by_cases h : n < 10
    · simp only [if_pos h, List.mem_cons, List.not_mem_nil, or_false] at hx
      omega
    · rw [if_neg h] at hx
      rcases List.mem_cons.mp hx with rfl | hx
      · omega
      · exact ih (n / 10) x hx

theorem natToBytes_digits (n : Nat) : ∀ x ∈ natToBytes n, 48 ≤ x ∧ x ≤ 57 := by
  intro x hx
  unfold natToBytes natDigitsRev at hx
  exact natDigitsRevAux_digits (n + 1) n x (List.mem_reverse.mp hx)

theorem fracBytes_range (t : GoTime) (hnv : t.nanos < 1000000000) :
    ∀ x ∈ fracBytes t, 43 ≤ x ∧ x ≤ 90 := by
  intro x hx
  unfold fracBytes at hx
  by_cases h0 : t.nanos = 0
  · simp [h0] at hx
  · rw [if_neg h0] at hx
    rcases List.mem_cons.mp hx with rfl | hx
    · omega
    · have := mem_dropTrailZeros hx
      simp only [pad9, List.mem_cons, List.not_mem_nil, or_false] at this
      rcases this with h1|h1|h1|h1|h1|h1|h1|h1|h1 <;> omega

theorem offsetBytes_range (t : GoTime) (hh : t.tzHour ≤ 23) (hm : t.tzMin ≤ 59) :
    ∀ x ∈ offsetBytes t, 43 ≤ x ∧ x ≤ 90 := by
  intro x hx
  unfold offsetBytes at hx
  by_cases hu : t.utc
  · simp [hu] at hx
    omega
  · rw [if_neg hu] at hx
    rcases List.mem_cons.mp hx with rfl | hx
    · by_cases hn : t.tzNeg <;> simp [hn]
    · rcases List.mem_append.mp hx with hx | hx
      · simp only [pad2, List.mem_cons, List.not_mem_nil, or_false] at hx
        rcases hx with h1|h1 <;> omega
      · rcases List.mem_cons.mp hx with rfl | hx
        · omega
        · simp only [pad2, List.mem_cons, List.not_mem_nil, or_false] at hx
          rcases hx with h1|h1 <;> omega

theorem formatRFC_range (t : GoTime) (h : t.valid) :
    ∀ x ∈ formatRFC3339Nano t, 43 ≤ x ∧ x ≤ 90 := by
  obtain ⟨hy1, hy2, hm1, hm2, hd1, hd2, hhr, hmi, hs, hn, hth, htm⟩ := h
  unfold formatRFC3339Nano
  simp only [List.forall_mem_append, List.forall_mem_cons, pad4, pad2,
    List.forall_mem_nil, and_true]
  repeat' apply And.intro
  all_goals
    first
      | exact fracBytes_range t hn
      | exact offsetBytes_range t hth htm
      | omega
      | trivial

/-- The formatted timestamp contains neither tab nor newline bytes. -/
theorem formatRFC_no_tab (t : GoTime) (h : t.valid) :
    ∀ x ∈ formatRFC3339Nano t, x ≠ 9 ∧ x ≠ 10 := by
  intro x hx
  have := formatRFC_range t h x hx
  omega

/-- C6 (amended): for every trace event none of whose string fields
contains a tab or newline byte, the line written by `WriteEvent`
splits on tabs into exactly the seven fields
`timestamp, pod, container, cgroup_id, operation, path, fstype`,
ends with a newline byte, and its timestamp field is accepted as
RFC3339 with nanoseconds. -/
theorem formatLine_seven_fields (e : TraceEvent)
    (ht : e.timestamp.valid)
    (hpod : ∀ x ∈ e.pod, x ≠ 9 ∧ x ≠ 10)
    (hctr : ∀ x ∈ e.container, x ≠ 9 ∧ x ≠ 10)
    (hop : ∀ x ∈ e.operation, x ≠ 9 ∧ x ≠ 10)
    (hpath : ∀ x ∈ e.path, x ≠ 9 ∧ x ≠ 10)
    (hfs : ∀ x ∈ e.fstype, x ≠ 9 ∧ x ≠ 10) :
    splitOnByte 9 (formatLine e).dropLast =
      [formatRFC3339Nano e.timestamp, e.pod, e.container, natToBytes e.cgroupId,
       e.operation, e.path, e.fstype] ∧
    (formatLine e).getLast? = some 10 ∧
    isRFC3339NanoB (formatRFC3339Nano e.timestamp) = true := by
  have hline : formatLine e =
      (formatRFC3339Nano e.timestamp ++ 9 :: (e.pod ++ 9 :: (e.container ++ 9 ::
        (natToBytes e.cgroupId ++ 9 :: (e.operation ++ 9 ::
          (e.path ++ 9 :: e.fstype)))))) ++ [10] := by
    simp [formatLine, List.append_assoc]
  refine ⟨?_, ?_, isRFC_format _ ht⟩
  · rw [hline, List.dropLast_concat,
      splitOnByte_append 9 _ _ (fun x hx => (formatRFC_no_tab e.timestamp ht x hx).1),
      splitOnByte_append 9 _ _ (fun x hx => (hpod x hx).1),
      splitOnByte_append 9 _ _ (fun x hx => (hctr x hx).1),
      splitOnByte_append 9 _ _ (fun x hx => by have := natToBytes_digits e.cgroupId x hx; omega),
      splitOnByte_append 9 _ _ (fun x hx => (hop x hx).1),
      splitOnByte_append 9 _ _ (fun x hx => (hpath x hx).1),
      splitOnByte_no_sep 9 _ (fun x hx => (hfs x hx).1)]
  · rw [hline, List.getLast?_concat]

/-- Witness for C6 (amended) at a concrete tab-free event. -/
theorem formatLine_seven_fields_witness :
    evtPlain.timestamp.valid ∧
    (splitOnByte 9 (formatLine evtPlain).dropLast =
      [formatRFC3339Nano evtPlain.timestamp, evtPlain.pod, evtPlain.container,
       natToBytes evtPlain.cgroupId, evtPlain.operation, evtPlain.path,
       evtPlain.fstype] ∧
     (formatLine evtPlain).getLast? = some 10 ∧
     isRFC3339NanoB (formatRFC3339Nano evtPlain.timestamp) = true) :=
  ⟨by decide, formatLine_seven_fields evtPlain (by decide) (by decide) (by decide)
    (by decide) (by decide) (by decide)⟩

/-- Enriched trace event whose path contains a tab byte. -/
def evtTabPath : TraceEvent :=
  { timestamp := timeExample, pod := bytesOf "p", container := bytesOf "c"
    cgroupId := 1, operation := bytesOf "alloc", path := [97, 9, 98]
    fstype := bytesOf "ext4" }

/-- C6 counterexample: a trace event whose path contains a tab byte
produces a record line with eight tab-separated fields, not seven —
the writer performs no escaping, so the universal 7-field claim fails
on the code. -/
theorem formatLine_tab_in_path_eight_fields :
    (splitOnByte 9 (formatLine evtTabPath).dropLast).length = 8 := by
  decide

/-! ### Userspace path-pattern filtering (internal/tracing/consumer.go) -/

/-- Specification-side substring containment: `sub` occurs contiguously
somewhere inside `s`. -/
def SubstrOf (sub s : List Nat) : Prop := ∃ pre suf, s = pre ++ sub ++ suf

/-- Translation of the Go helper `contains`: scan offsets
`0 .. len(s) - len(sub)` and compare the window at each offset. -/
def goContains (s sub : List Nat) : Bool :=
  (List.range (s.length - sub.length + 1)).any
    (fun i => (s.drop i).take sub.length == sub)

/-- Translation of `containsSubstring`: a non-empty needle no longer
than the haystack that the scan finds. -/
def containsSubstring (s sub : List Nat) : Bool :=
  decide (0 < sub.length) && decide (sub.length ≤ s.length) && goContains s sub

/-- Translation of `matchesAnyPattern`. -/
def matchesAnyPattern (path : List Nat) (patterns : List (List Nat)) : Bool :=
  patterns.any (fun pat => containsSubstring path pat)

/-- The consumer's filter decision: the event is kept unless the
pattern list is non-empty and no pattern matches
(`if len(patterns) > 0 && !matchesAnyPattern(path, patterns) { continue }`). -/
def keepEvent (path : List Nat) (patterns : List (List Nat)) : Bool :=
  !(decide (0 < patterns.length) && !matchesAnyPattern path patterns)

theorem goContains_iff (s sub : List Nat) (hlen : sub.length ≤ s.length) :
    goContains s sub = true ↔ SubstrOf sub s := by
  unfold goContains SubstrOf
  rw [List.any_eq_true]
  constructor
  · rintro ⟨i, hi, heq⟩
    rw [beq_iff_eq] at heq
    refine ⟨s.take i, s.drop (i + sub.length), ?_⟩
    conv_lhs => rw [← List.take_append_drop i s]
    rw [List.append_assoc]
    congr 1
    conv_lhs => rw [← List.take_append_drop sub.length (s.drop i)]
    rw [heq, List.drop_drop]
  · rintro ⟨pre, suf, rfl⟩
    refine ⟨pre.length, ?_, ?_⟩
    · rw [List.mem_range]
      simp only [List.length_append]
      omega
    · rw [beq_iff_eq, List.append_assoc, List.drop_left, List.take_left]

theorem containsSubstring_iff (s sub : List Nat) :
    containsSubstring s sub = true ↔ sub ≠ [] ∧ SubstrOf sub s := by
  unfold containsSubstring
  simp only [Bool.and_eq_true, decide_eq_true_eq]
  constructor
  · rintro ⟨⟨h1, h2⟩, h3⟩
    refine ⟨?_, (goContains_iff s sub h2).mp h3⟩
    intro he
    subst he
    simp at h1
  · rintro ⟨hne, hsub⟩
    have hlen : sub.length ≤ s.length := by
      obtain ⟨pre, suf, rfl⟩ := hsub
      simp only [List.length_append]
      omega
    exact ⟨⟨List.length_pos.mpr hne, hlen⟩, (goContains_iff s sub hlen).mpr hsub⟩

/-- C7 (amended): an event is kept iff the pattern list is empty or
the reconstructed path contains some configured pattern that is
non-empty — an empty-string pattern never matches, because the Go
helper `containsSubstring` requires `len(substr) > 0`. -/
theorem keepEvent_iff (path : List Nat) (patterns : List (List Nat)) :
    keepEvent path patterns = true ↔
      patterns = [] ∨ ∃ p ∈ patterns, p ≠ [] ∧ SubstrOf p path := by
  by_cases hp : patterns = []
  · subst hp
    simp [keepEvent, matchesAnyPattern]
  · have hlen : 0 < patterns.length := List.length_pos.mpr hp
    simp [keepEvent, matchesAnyPattern, hlen, List.any_eq_true,
      containsSubstring_iff, hp]

/-- C7 counterexample: with the configured pattern list `[""]`, the
empty string is a substring of the path `"a"`, yet the filter drops
the event — refuting the claim that an event is kept whenever its
path contains at least one configured substring. -/
theorem keepEvent_empty_pattern_drops :
    keepEvent (bytesOf "a") [[]] = false ∧ SubstrOf [] (bytesOf "a") := by
  constructor
  · rfl
  · exact ⟨[], bytesOf "a", rfl⟩

/-! ### Kernel probe layer (internal/ebpf/dentry.c)

The per-cgroup stats map and the node-wide reclaim counter are
modelled as explicit state; each kprobe body is a state transformer.
`bpf_map_update_elem(..., BPF_NOEXIST)` can fail when the map is full,
which is modelled by the `canInsert` input of a probe invocation. -/

/-- Mirror of `struct dentry_stats`. -/
structure DentryStats where
  alloc : Nat
  positive : Nat
  negative : Nat
deriving DecidableEq

/-- Kernel-resident state touched by the probes: the
`dentry_stats_map` contents and the `reclaim_count` value. -/
structure KState where
  stats : Nat → Option DentryStats
  reclaim : Nat

/-- Point update of the stats map. -/
def updateStats (m : Nat → Option DentryStats) (cgid : Nat) (v : DentryStats) :
    Nat → Option DentryStats :=
  fun c => if c = cgid then some v else m c

/-- Translation of `get_or_create_stats`: lookup, insert-if-absent of
the zero struct (which can fail when the map is full), then lookup
again.  Returns the possibly-updated map and the looked-up entry. -/
def getOrCreateStats (m : Nat → Option DentryStats) (cgid : Nat) (canInsert : Bool) :
    (Nat → Option DentryStats) × Option DentryStats :=
  match m cgid with
  | some s => (m, some s)
  | none =>
    if canInsert then (updateStats m cgid ⟨0, 0, 0⟩, some ⟨0, 0, 0⟩)
    else (m, none)

/-- Shared shape of the counting probes: `get_or_create_stats`
followed by one atomic `__sync_fetch_and_add` on the entry when the
lookup succeeded. -/
def probeBump (m : Nat → Option DentryStats) (cgid : Nat) (canInsert : Bool)
    (f : DentryStats → DentryStats) : Nat → Option DentryStats :=
  let r := getOrCreateStats m cgid canInsert
  match r.2 with
  | none => r.1
  | some v => updateStats r.1 cgid (f v)

/-- One probe invocation: which kprobe fired and its kernel inputs. -/
inductive ProbeOp where
  | allocCount (cgid : Nat) (canInsert : Bool)
  | allocPath
  | instantiate (cgid : Nat) (hasInode : Bool) (canInsert : Bool)
  | shrink

/-- Translation of the four kprobe bodies: `trace_d_alloc` bumps
`alloc`, `trace_d_alloc_path` only emits a ring-buffer event (no
counter touched), `trace_d_instantiate` bumps `positive` or
`negative` depending on the inode argument, and
`trace_shrink_dcache` bumps the node-wide reclaim counter. -/
def stepProbe (s : KState) : ProbeOp → KState
  | .allocCount cgid canInsert =>
    let m := probeBump s.stats cgid canInsert (fun v => { v with alloc := v.alloc + 1 })
    { s with stats := m }
  | .allocPath => s
  | .instantiate cgid hasInode canInsert =>
    if hasInode then
      let m := probeBump s.stats cgid canInsert (fun v => { v with positive := v.positive + 1 })
      { s with stats := m }
    else
      let m := probeBump s.stats cgid canInsert (fun v => { v with negative := v.negative + 1 })
      { s with stats := m }
  | .shrink => { s with reclaim := s.reclaim + 1 }

/-- Pointwise order on counter triples. -/
def statsLe (a b : DentryStats) : Prop :=
  a.alloc ≤ b.alloc ∧ a.positive ≤ b.positive ∧ a.negative ≤ b.negative

/-- Monotonicity order on kernel states: every live stats entry stays
live with pointwise non-decreasing counters, and the reclaim counter
does not decrease. -/
def kstateLe (s s' : KState) : Prop :=
  (∀ c v, s.stats c = some v → ∃ v', s'.stats c = some v' ∧ statsLe v v') ∧
  s.reclaim ≤ s'.reclaim

/-- A single step increases any existing entry's counter total by at
most one, and the reclaim counter by at most one. -/
def stepBounded (s s' : KState) : Prop :=
  (∀ c v v', s.stats c = some v → s'.stats c = some v' →
    v'.alloc + v'.positive + v'.negative ≤ v.alloc + v.positive + v.negative + 1) ∧
  s'.reclaim ≤ s.reclaim + 1

theorem statsLe_refl (v : DentryStats) : statsLe v v :=
  ⟨le_refl _, le_refl _, le_refl _⟩

theorem statsLe_trans {a b c : DentryStats} (h1 : statsLe a b) (h2 : statsLe b c) :
    statsLe a c :=
  ⟨le_trans h1.1 h2.1, le_trans h1.2.1 h2.2.1, le_trans h1.2.2 h2.2.2⟩

theorem kstateLe_refl (s : KState) : kstateLe s s :=
  ⟨fun _ v hv => ⟨v, hv, statsLe_refl v⟩, le_refl _⟩

theorem kstateLe_trans {a b c : KState} (h1 : kstateLe a b) (h2 : kstateLe b c) :
    kstateLe a c := by
  refine ⟨?_, le_trans h1.2 h2.2⟩
  intro cg v hv
  obtain ⟨v', hv', hle⟩ := h1.1 cg v hv
  obtain ⟨v'', hv'', hle'⟩ := h2.1 cg v' hv'
  exact ⟨v'', hv'', statsLe_trans hle hle'⟩

theorem probeBump_le (m : Nat → Option DentryStats) (cgid : Nat) (canInsert : Bool)
    (f : DentryStats → DentryStats) (hf : ∀ v, statsLe v (f v)) :
    ∀ c v, m c = some v → ∃ v', probeBump m cgid canInsert f c = some v' ∧ statsLe v v' := by
  intro c v hc
  unfold probeBump getOrCreateStats
  cases h : m cgid with
  | some w =>
    simp only [h]
    by_cases hceq : c = cgid
    · subst hceq
      rw [hc] at h
      injection h with h
      subst h
      exact ⟨f v, by simp [updateStats], hf v⟩
    · exact ⟨v, by simp [updateStats, hceq, hc], statsLe_refl v⟩
  | none =>
    by_cases hci : canInsert
    · have hcne : c ≠ cgid := by
        intro he
        subst he
        rw [hc] at h
        cases h
      simp only [h, hci, if_pos]
      exact ⟨v, by simp [updateStats, hcne, hc], statsLe_refl v⟩
    · simp [h, hci]
      exact ⟨v, hc, statsLe_refl v⟩

theorem probeBump_bounded (m : Nat → Option DentryStats) (cgid : Nat) (canInsert : Bool)
    (f : DentryStats → DentryStats)
    (hb : ∀ v, (f v).alloc + (f v).positive + (f v).negative ≤
      v.alloc + v.positive + v.negative + 1) :
    ∀ c v v', m c = some v → probeBump m cgid canInsert f c = some v' →
      v'.alloc + v'.positive + v'.negative ≤ v.alloc + v.positive + v.negative + 1 := by
  intro c v v' hc hc'
  unfold probeBump getOrCreateStats at hc'
  cases h : m cgid with
  | some w =>
    rw [h] at hc'
    simp only at hc'
    by_cases hceq : c = cgid
    · subst hceq
      rw [hc] at h
      injection h with h
      subst h
      simp [updateStats] at hc'
      subst hc'
      exact hb v
    · simp [updateStats, hceq] at hc'
      rw [hc] at hc'
      injection hc' with hc'
      subst hc'
      omega
  | none =>
    rw [h] at hc'
    by_cases hci : canInsert
    · have hcne : c ≠ cgid := by
        intro he
        subst he
        rw [hc] at h
        cases h
      simp only [hci, if_pos] at hc'
      simp [updateStats, hcne] at hc'
      rw [hc] at hc'
      injection hc' with hc'
      subst hc'
      omega
    · simp [hci] at hc'
      rw [hc] at hc'
      injection hc' with hc'
      subst hc'
      omega

theorem stepProbe_le (s : KState) (op : ProbeOp) : kstateLe s (stepProbe s op) := by
  cases op with
  | allocCount cgid canInsert =>
    refine ⟨?_, le_refl _⟩
    intro c v hv
    exact probeBump_le s.stats cgid canInsert
      (fun v => { v with alloc := v.alloc + 1 })
      (fun v => ⟨Nat.le_succ _, le_refl _, le_refl _⟩) c v hv
  | allocPath => exact kstateLe_refl s
  | instantiate cgid hasInode canInsert =>
    cases hasInode with
    | true =>
      refine ⟨?_, le_refl _⟩
      intro c v hv
      show ∃ v', probeBump s.stats cgid canInsert
        (fun v => { v with positive := v.positive + 1 }) c = some v' ∧ statsLe v v'
      exact probeBump_le s.stats cgid canInsert
        (fun v => { v with positive := v.positive + 1 })
        (fun v => ⟨le_refl _, Nat.le_succ _, le_refl _⟩) c v hv
    | false =>
      refine ⟨?_, le_refl _⟩
      intro c v hv
      show ∃ v', probeBump s.stats cgid canInsert
        (fun v => { v with negative := v.negative + 1 }) c = some v' ∧ statsLe v v'
      exact probeBump_le s.stats cgid canInsert
        (fun v => { v with negative := v.negative + 1 })
        (fun v => ⟨le_refl _, le_refl _, Nat.le_succ _⟩) c v hv
  | shrink =>
    exact ⟨fun c v hv => ⟨v, hv, statsLe_refl v⟩, Nat.le_succ _⟩

theorem stepProbe_bounded (s : KState) (op : ProbeOp) : stepBounded s (stepProbe s op) := by
  cases op with
  | allocCount cgid canInsert =>
    refine ⟨?_, Nat.le_succ _⟩
    intro c v v' hv hv'
    refine probeBump_bounded s.stats cgid canInsert
      (fun v => { v with alloc := v.alloc + 1 })
      (fun v => ?_) c v v' hv hv'
    show v.alloc + 1 + v.positive + v.negative ≤ v.alloc + v.positive + v.negative + 1
    omega
  | allocPath =>
    refine ⟨?_, Nat.le_succ _⟩
    intro c v v' hv hv'
    have h2 : s.stats c = some v' := hv'
    rw [hv] at h2
    injection h2 with h
    subst h
    omega
  | instantiate cgid hasInode canInsert =>
    cases hasInode with
    | true =>
      refine ⟨?_, Nat.le_succ _⟩
      intro c v v' hv hv'
      refine probeBump_bounded s.stats cgid canInsert
        (fun v => { v with positive := v.positive + 1 })
        (fun v => ?_) c v v' hv hv'
      show v.alloc + (v.positive + 1) + v.negative ≤ v.alloc + v.positive + v.negative + 1
      omega
    | false =>
      refine ⟨?_, Nat.le_succ _⟩
      intro c v v' hv hv'
      refine probeBump_bounded s.stats cgid canInsert
        (fun v => { v with negative := v.negative + 1 })
        (fun v => ?_) c v v' hv hv'
      show v.alloc + v.positive + (v.negative + 1) ≤ v.alloc + v.positive + v.negative + 1
      omega
  | shrink =>
    refine ⟨?_, le_refl _⟩
    intro c v v' hv hv'
    have h2 : s.stats c = some v' := hv'
    rw [hv] at h2
    injection h2 with h
    subst h
    omega

theorem foldl_stepProbe_le (ops : List ProbeOp) : ∀ s, kstateLe s (ops.foldl stepProbe s) := by
  induction ops with
  | nil => intro s; exact kstateLe_refl s
  | cons op ops ih =>
    intro s
    exact kstateLe_trans (stepProbe_le s op) (ih (stepProbe s op))

/-- C8: over any sequence of probe invocations, every live per-cgroup
counter triple is pointwise non-decreasing and the node-wide reclaim
counter never decreases; moreover a single probe hit increases an
entry's counters by at most one in total (one atomic fetch-and-add)
and the reclaim counter by at most one. -/
theorem probe_counters_monotone (s : KState) (ops : List ProbeOp) :
    kstateLe s (ops.foldl stepProbe s) ∧
    ∀ op : ProbeOp, stepBounded s (stepProbe s op) :=
  ⟨foldl_stepProbe_le ops s, fun op => stepProbe_bounded s op⟩

/-- Empty kernel state used by the C8 witness. -/
def kstateExample : KState := { stats := fun _ => none, reclaim := 0 }

/-- Witness for C8 at a concrete state and probe sequence. -/
theorem probe_counters_monotone_witness :
    kstateLe kstateExample
      ([ProbeOp.allocCount 7 true, ProbeOp.shrink].foldl stepProbe kstateExample) ∧
    ∀ op : ProbeOp, stepBounded kstateExample (stepProbe kstateExample op) :=
  probe_counters_monotone kstateExample [ProbeOp.allocCount 7 true, ProbeOp.shrink]

/-! ### Metrics collector: /proc/sys/fs/dentry-state gauges
(internal/metrics/collector.go) -/

/-- Bytes treated as whitespace by `strings.Fields`. -/
def isSpaceByte (b : Nat) : Bool :=
  b == 32 || b == 9 || b == 10 || b == 11 || b == 12 || b == 13

/-- Worker for `goFields`, structurally recursive on explicit fuel;
every recursive call drops at least one byte, so `length + 1` units of
fuel always suffice. -/
def goFieldsAux : Nat → List Nat → List (List Nat)
  | 0, _ => []
  | fuel + 1, bs =>
    match bs with
    | [] => []
    | b :: rest =>
      if isSpaceByte b then goFieldsAux fuel rest
      else (b :: rest.takeWhile (fun c => !isSpaceByte c)) ::
        goFieldsAux fuel (rest.dropWhile (fun c => !isSpaceByte c))

/-- Translation of `strings.Fields`: split around runs of whitespace. -/
def goFields (bs : List Nat) : List (List Nat) := goFieldsAux (bs.length + 1) bs

/-- Numeric value of a digit-byte string. -/
def digitsToNat (l : List Nat) : Nat :=
  l.foldl (fun acc b => acc * 10 + (b - 48)) 0

/-- Syntax accepted by `strconv.ParseInt(s, 10, 64)`: an optional sign
followed by at least one digit. -/
def intSyntaxOk (bs : List Nat) : Bool :=
  match bs with
  | 43 :: rest => decide (rest ≠ []) && rest.all isDigitB
  | 45 :: rest => decide (rest ≠ []) && rest.all isDigitB
  | _ => decide (bs ≠ []) && bs.all isDigitB

/-- Translation of `strconv.ParseInt(s, 10, 64)` as used by the
collector (the error is discarded, so a syntax error yields 0 and an
out-of-range value is clamped to the int64 boundary). -/
def parseIntGo (bs : List Nat) : Int :=
  let p : Bool × List Nat :=
    match bs with
    | 43 :: rest => (false, rest)
    | 45 :: rest => (true, rest)
    | _ => (false, bs)
  if p.2 = [] then 0
  else if ¬(p.2.all isDigitB = true) then 0
  else
    let v := digitsToNat p.2
    if p.1 then
      if 9223372036854775808 < v then -9223372036854775808 else -(v : Int)
    else
      if 9223372036854775807 < v then 9223372036854775807 else (v : Int)

/-- First line of the file, as consumed by the single `scanner.Scan()`
call. -/
def firstLine (bs : List Nat) : List Nat := bs.takeWhile (fun b => !(b == 10))

/-- Translation of `readDentryState`: `none` content models an
unreadable file; an empty file fails the scan; fewer than five
whitespace-separated fields is a parse failure; otherwise fields
0, 1 and 4 are parsed with errors ignored. -/
def readDentryState (content : Option (List Nat)) : Int × Int × Int :=
  match content with
  | none => (-1, -1, -1)
  | some bs =>
    if bs = [] then (-1, -1, -1)
    else
      let fields := goFields (firstLine bs)
      if fields.length < 5 then (-1, -1, -1)
      else (parseIntGo (fields.getD 0 []), parseIntGo (fields.getD 1 []),
        parseIntGo (fields.getD 4 []))

/-- The gauge-emission decision in `Collector.Collect`: the three
node-level gauges are emitted iff the parsed total is non-negative. -/
def collectGauges (content : Option (List Nat)) : Option (Int × Int × Int) :=
  let r := readDentryState content
  if 0 ≤ r.1 then some r else none

/-- C9 (amended): the three node-level dentry gauges are omitted from
a scrape exactly when the file is unreadable, empty, has fewer than
five whitespace-separated fields on its first line, or its first
field parses to a negative value; in every other case they are
emitted, with fields that fail numeric parsing reported as 0 (the
parse error is discarded), and the scrape itself never fails since
the decision is a total function of the file content. -/
theorem gauges_omitted_iff (content : Option (List Nat)) :
    collectGauges content = none ↔
      content = none ∨
      ∃ bs, content = some bs ∧
        (bs = [] ∨ (goFields (firstLine bs)).length < 5 ∨
          parseIntGo ((goFields (firstLine bs)).getD 0 []) < 0) := by
  cases content with
  | none => simp [collectGauges, readDentryState]
  | some bs =>
    by_cases h1 : bs = []
    · subst h1
      simp [collectGauges, readDentryState]
    · by_cases h2 : (goFields (firstLine bs)).length < 5
      · simp [collectGauges, readDentryState, h1, h2]
      · by_cases h3 : parseIntGo ((goFields (firstLine bs)).getD 0 []) < 0
        · simp [collectGauges, readDentryState, h1, h2, h3]
        · simp [collectGauges, readDentryState, h1, h2, h3]

/-- First line of the C9 counterexample file: five fields, none of
which is a valid integer. -/
def dentryStateBad : List Nat := bytesOf "x y z w v"

/-- C9 counterexample: a five-field dentry-state file whose first field
is not parseable as an integer still has its gauges emitted (as 0),
refuting the claim that unparseable input always omits the gauges. -/
theorem gauges_emitted_on_unparseable_fields :
    intSyntaxOk ((goFields dentryStateBad).getD 0 []) = false ∧
    collectGauges (some dentryStateBad) = some (0, 0, 0) := by
  constructor
  · rfl
  · rfl

/-! ### Path-capture probe trace_d_alloc_path (internal/ebpf/dentry.c)

Kernel memory is modelled abstractly: `dparent` and `dname` read the
`d_parent` and `d_name.name` pointers of the dentry at an address, and
`qstrName` reads the `name` pointer of a qstr; address 0 is NULL. -/

/-- Abstract kernel memory visible to the probe. -/
structure DMem where
  dparent : Nat → Nat
  dname : Nat → Nat
  qstrName : Nat → Nat

/-- The depth word of a submitted event, split into the component
count (bits 0–30) and the root-reached flag (bit 31). -/
structure PathProbeOut where
  count : Nat
  root : Bool
deriving DecidableEq

/-- One unrolled block of `trace_d_alloc_path` and the final check,
indexed by remaining fill budget.  The C source repeats, for slots 2
through 7, the literal block `dₖ₊₁ = READ(dₖ, d_parent); if (!dₖ₊₁ ||
dₖ₊₁ == dₖ) goto reached_root; np = READ(dₖ₊₁, d_name.name); if (np)
{ fill slot, depth = slot+1 }`, and after slot 7 performs one more
parent read whose NULL/self check sets the root flag (else the event
is submitted truncated).  Here `fuel = 6` corresponds to the six
fill blocks (the filled depth at fuel `n` is `9 - n`, i.e. 3, 4, …,
8) and `fuel = 0` is the final check-only read of `d8`. -/
def walkFill (m : DMem) : Nat → Nat → Nat → Option PathProbeOut
  | 0, d, depth =>
    let p := m.dparent d
    if p = 0 ∨ p = d then some ⟨depth, true⟩ else some ⟨depth, false⟩
  | n + 1, d, depth =>
    let p := m.dparent d
    if p = 0 ∨ p = d then some ⟨depth, true⟩
    else walkFill m n p (if m.dname p ≠ 0 then 9 - (n + 1) else depth)

/-- Translation of `trace_d_alloc_path`: guards (tracing disabled,
NULL parent, failed ring-buffer reservation) produce no event; slot 0
is filled from the qstr parameter (depth 1) and slot 1 from the
parent's name (depth raised to 2), then the manually unrolled
parent-chain walk `walkFill` runs with its six fill blocks and final
ninth-ancestor check. -/
def traceAllocPath (m : DMem) (parentPtr qnamePtr : Nat)
    (enabled reserveOk : Bool) : Option PathProbeOut :=
  if !enabled then none
  else if parentPtr = 0 then none
  else if !reserveOk then none
  else
    let d1 := if qnamePtr ≠ 0 ∧ m.qstrName qnamePtr ≠ 0 then 1 else 0
    let d2 := if m.dname parentPtr ≠ 0 then (if d1 < 2 then 2 else d1) else d1
    walkFill m 6 parentPtr d2

/-- Specification-side predicate: the parent chain starting at `d`
reaches a dentry whose parent pointer is NULL or itself within `n`
parent reads. -/
def hitsRoot (m : DMem) : Nat → Nat → Bool
  | _, 0 => false
  | d, n + 1 =>
    let p := m.dparent d
    if p = 0 ∨ p = d then true else hitsRoot m p n

/-- C10: every event submitted by the path-capture probe has a
component count between 0 and 8 inclusive, and carries the
root-reached flag exactly when the unrolled walk met a NULL or
self-referential parent pointer within its seven parent reads
(checks `d2` through `d8`). -/
theorem walkFill_out (m : DMem) :
    ∀ (n d depth : Nat) (out : PathProbeOut),
      walkFill m n d depth = some out → depth ≤ 8 →
      out.count ≤ 8 ∧ out.root = hitsRoot m d (n + 1) := by
  intro n
  induction n with
  | zero =>
    intro d depth out h hd
    simp only [walkFill] at h
    by_cases hc : m.dparent d = 0 ∨ m.dparent d = d
    · rw [if_pos hc] at h
      injection h with h
      subst h
      exact ⟨hd, by simp [hitsRoot, hc]⟩
    · rw [if_neg hc] at h
      injection h with h
      subst h
      exact ⟨hd, by simp [hitsRoot, hc]⟩
  | succ n ih =>
    intro d depth out h hd
    simp only [walkFill] at h
    by_cases hc : m.dparent d = 0 ∨ m.dparent d = d
    · rw [if_pos hc] at h
      injection h with h
      subst h
      exact ⟨hd, by simp [hitsRoot, hc]⟩
    · rw [if_neg hc] at h
      have hd' : (if m.dname (m.dparent d) ≠ 0 then 9 - (n + 1) else depth) ≤ 8 := by
        split_ifs <;> omega
      obtain ⟨hcount, hroot⟩ := ih (m.dparent d) _ out h hd'
      refine ⟨hcount, ?_⟩
      rw [hroot]
      simp [hitsRoot, hc]

/-- C10: every event submitted by the path-capture probe has a
component count between 0 and 8 inclusive, and carries the
root-reached flag exactly when the unrolled walk met a NULL or
self-referential parent pointer within its seven parent reads
(checks of ancestors 2 through 8). -/
theorem traceAllocPath_out (m : DMem) (parentPtr qnamePtr : Nat)
    (enabled reserveOk : Bool) (out : PathProbeOut)
    (h : traceAllocPath m parentPtr qnamePtr enabled reserveOk = some out) :
    out.count ≤ 8 ∧ out.root = hitsRoot m parentPtr 7 := by
  unfold traceAllocPath at h
  by_cases h1 : (!enabled) = true
  · rw [if_pos h1] at h
    exact Option.noConfusion h
  · rw [if_neg h1] at h
    by_cases h2 : parentPtr = 0
    · rw [if_pos h2] at h
      exact Option.noConfusion h
    · rw [if_neg h2] at h
      by_cases h3 : (!reserveOk) = true
      · rw [if_pos h3] at h
        exact Option.noConfusion h
      · rw [if_neg h3] at h
        refine walkFill_out m 6 parentPtr _ out h ?_
        split_ifs <;> omega

/-- Kernel memory in which every pointer field reads as NULL, used by
the C10 witness: the parent's own parent is NULL, so the walk reaches
root immediately with zero captured components. -/
def dmemExample : DMem :=
  { dparent := fun _ => 0, dname := fun _ => 0, qstrName := fun _ => 0 }

/-- Witness for C10 at a concrete memory and event. -/
theorem traceAllocPath_out_witness :
    traceAllocPath dmemExample 5 0 true true = some ⟨0, true⟩ ∧
    ((⟨0, true⟩ : PathProbeOut).count ≤ 8 ∧
     (⟨0, true⟩ : PathProbeOut).root = hitsRoot dmemExample 5 7) :=
  ⟨rfl, traceAllocPath_out dmemExample 5 0 true true ⟨0, true⟩ rfl⟩

end DentryMonitor
